import Mathlib

/-!
A shallow embedding of the `safetype` runtime validation engine
(`src/validator.ts`) and proofs about its combinators.

JavaScript values are modelled by the inductive type `JsValue`.  Composite
values (objects, arrays, functions) carry a numeric identity `Nat` standing
for their heap address, so that JavaScript reference equality (`===` on
composites) becomes plain equality of `JsValue`s: two distinct allocations
have distinct ids and hence are unequal.  Allocation of a fresh composite is
modelled by a counter threaded through validation in `VState`; a state is
well-formed for an input when its counter exceeds every id occurring in the
input, which is how `makeContext` initialises it.

Exceptions (`context.fail` / `throw`) are modelled with `Except String`:
every validation function returns the final mutable-context state paired
with either the validated value or the raised error message.  `try/finally`
around a nested validation becomes an explicit match that pops the path key
on both the success and the error branch.
-/

namespace SafeType

/-- A JavaScript value.  Objects, arrays and functions carry their heap
identity; object fields and array elements are kept in insertion order.
A function value also records its declared parameter count (`f.length`). -/
inductive JsValue where
  | vNull
  | vUndef
  | vBool (b : Bool)
  | vNum (n : Int)
  | vStr (s : String)
  | vArr (id : Nat) (elems : List JsValue)
  | vObj (id : Nat) (fields : List (String × JsValue))
  | vFun (id : Nat) (arity : Nat)
deriving Repr

mutual
/-- Decidable equality of values (the derivation does not handle the nested
`List`, so it is spelt out). -/
def decEqVal : (a b : JsValue) → Decidable (a = b)
  | .vNull, .vNull => .isTrue rfl
  | .vUndef, .vUndef => .isTrue rfl
  | .vBool x, .vBool y =>
    match decEq x y with
    | .isTrue h => .isTrue (by rw [h])
    | .isFalse h => .isFalse (fun hh => h (JsValue.vBool.inj hh))
  | .vNum x, .vNum y =>
    match decEq x y with
    | .isTrue h => .isTrue (by rw [h])
    | .isFalse h => .isFalse (fun hh => h (JsValue.vNum.inj hh))
  | .vStr x, .vStr y =>
    match decEq x y with
    | .isTrue h => .isTrue (by rw [h])
    | .isFalse h => .isFalse (fun hh => h (JsValue.vStr.inj hh))
  | .vFun i x, .vFun j y =>
    match decEq i j, decEq x y with
    | .isTrue h1, .isTrue h2 => .isTrue (by rw [h1, h2])
    | .isFalse h1, _ => .isFalse (fun hh => h1 (JsValue.vFun.inj hh).1)
    | _, .isFalse h2 => .isFalse (fun hh => h2 (JsValue.vFun.inj hh).2)
  | .vArr i es, .vArr j fs =>
    match decEq i j, decEqValList es fs with
    | .isTrue h1, .isTrue h2 => .isTrue (by rw [h1, h2])
    | .isFalse h1, _ => .isFalse (fun hh => h1 (JsValue.vArr.inj hh).1)
    | _, .isFalse h2 => .isFalse (fun hh => h2 (JsValue.vArr.inj hh).2)
  | .vObj i es, .vObj j fs =>
    match decEq i j, decEqValFields es fs with
    | .isTrue h1, .isTrue h2 => .isTrue (by rw [h1, h2])
    | .isFalse h1, _ => .isFalse (fun hh => h1 (JsValue.vObj.inj hh).1)
    | _, .isFalse h2 => .isFalse (fun hh => h2 (JsValue.vObj.inj hh).2)
  | .vNull, .vUndef | .vNull, .vBool _ | .vNull, .vNum _ | .vNull, .vStr _
  | .vNull, .vArr _ _ | .vNull, .vObj _ _ | .vNull, .vFun _ _ | .vUndef, .vNull
  | .vUndef, .vBool _ | .vUndef, .vNum _ | .vUndef, .vStr _ | .vUndef, .vArr _ _
  | .vUndef, .vObj _ _ | .vUndef, .vFun _ _ | .vBool _, .vNull | .vBool _, .vUndef
  | .vBool _, .vNum _ | .vBool _, .vStr _ | .vBool _, .vArr _ _ | .vBool _, .vObj _ _
  | .vBool _, .vFun _ _ | .vNum _, .vNull | .vNum _, .vUndef | .vNum _, .vBool _
  | .vNum _, .vStr _ | .vNum _, .vArr _ _ | .vNum _, .vObj _ _ | .vNum _, .vFun _ _
  | .vStr _, .vNull | .vStr _, .vUndef | .vStr _, .vBool _ | .vStr _, .vNum _
  | .vStr _, .vArr _ _ | .vStr _, .vObj _ _ | .vStr _, .vFun _ _ | .vArr _ _, .vNull
  | .vArr _ _, .vUndef | .vArr _ _, .vBool _ | .vArr _ _, .vNum _ | .vArr _ _, .vStr _
  | .vArr _ _, .vObj _ _ | .vArr _ _, .vFun _ _ | .vObj _ _, .vNull | .vObj _ _, .vUndef
  | .vObj _ _, .vBool _ | .vObj _ _, .vNum _ | .vObj _ _, .vStr _ | .vObj _ _, .vArr _ _
  | .vObj _ _, .vFun _ _ | .vFun _ _, .vNull | .vFun _ _, .vUndef | .vFun _ _, .vBool _
  | .vFun _ _, .vNum _ | .vFun _ _, .vStr _ | .vFun _ _, .vArr _ _ | .vFun _ _, .vObj _ _ =>
    .isFalse (by simp)

/-- Decidable equality of value lists. -/
def decEqValList : (a b : List JsValue) → Decidable (a = b)
  | [], [] => .isTrue rfl
  | [], _ :: _ => .isFalse (by simp)
  | _ :: _, [] => .isFalse (by simp)
  | v :: vs, w :: ws =>
    match decEqVal v w, decEqValList vs ws with
    | .isTrue h1, .isTrue h2 => .isTrue (by rw [h1, h2])
    | .isFalse h1, _ => .isFalse (fun hh => h1 (List.cons.inj hh).1)
    | _, .isFalse h2 => .isFalse (fun hh => h2 (List.cons.inj hh).2)

/-- Decidable equality of field lists. -/
def decEqValFields : (a b : List (String × JsValue)) → Decidable (a = b)
  | [], [] => .isTrue rfl
  | [], _ :: _ => .isFalse (by simp)
  | _ :: _, [] => .isFalse (by simp)
  | (k, v) :: vs, (l, w) :: ws =>
    match decEq k l, decEqVal v w, decEqValFields vs ws with
    | .isTrue h1, .isTrue h2, .isTrue h3 => .isTrue (by rw [h1, h2, h3])
    | .isFalse h1, _, _ => .isFalse (fun hh => h1 (Prod.mk.inj (List.cons.inj hh).1).1)
    | _, .isFalse h2, _ => .isFalse (fun hh => h2 (Prod.mk.inj (List.cons.inj hh).1).2)
    | _, _, .isFalse h3 => .isFalse (fun hh => h3 (List.cons.inj hh).2)
end

instance : DecidableEq JsValue := decEqVal

instance {ε α : Type} [DecidableEq ε] [DecidableEq α] : DecidableEq (Except ε α) := fun a b =>
  match a, b with
  | .ok x, .ok y =>
    match decEq x y with
    | .isTrue h => .isTrue (by rw [h])
    | .isFalse h => .isFalse (fun hh => h (Except.ok.inj hh))
  | .error x, .error y =>
    match decEq x y with
    | .isTrue h => .isTrue (by rw [h])
    | .isFalse h => .isFalse (fun hh => h (Except.error.inj hh))
  | .ok _, .error _ => .isFalse (fun hh => Except.noConfusion hh)
  | .error _, .ok _ => .isFalse (fun hh => Except.noConfusion hh)

/-- JavaScript `typeof`.  Note `typeof null === "object"`. -/
def jsTypeof : JsValue → String
  | .vNull => "object"
  | .vUndef => "undefined"
  | .vBool _ => "boolean"
  | .vNum _ => "number"
  | .vStr _ => "string"
  | .vArr _ _ => "object"
  | .vObj _ _ => "object"
  | .vFun _ _ => "function"

/-- `typeName` from `validator.ts`: `null`/`undefined` first, then
`Array.isArray`, then `typeof x === "object"`, else `a <typeof x>`. -/
def typeName : JsValue → String
  | .vNull => "null"
  | .vUndef => "undefined"
  | .vArr _ _ => "an array"
  | .vObj _ _ => "an object"
  | x => "a " ++ jsTypeof x

/-- The enumerable own properties of a value, in key insertion order
(`Object.keys` order).  For an array these are the stringified indices;
the non-enumerable `length` property is not listed. -/
def ownFields : JsValue → List (String × JsValue)
  | .vObj _ fs => fs
  | .vArr _ es => (es.enum).map (fun p => (toString p.1, p.2))
  | _ => []

/-- `x.hasOwnProperty(k)`.  Arrays additionally own `length`. -/
def hasOwn (x : JsValue) (k : String) : Bool :=
  match x with
  | .vArr _ es => (((es.enum).map (fun p => (toString p.1, p.2))).lookup k).isSome
      || k == "length"
  | _ => ((ownFields x).lookup k).isSome

/-- Property read `x[k]`; absent properties read as `undefined`. -/
def getProp (x : JsValue) (k : String) : JsValue :=
  match x with
  | .vArr _ es =>
      if k == "length" then .vNum es.length
      else ((((es.enum).map (fun p => (toString p.1, p.2))).lookup k).getD .vUndef)
  | _ => ((ownFields x).lookup k).getD .vUndef

mutual
/-- Largest heap id occurring in a value (0 when none). -/
def maxId : JsValue → Nat
  | .vNull | .vUndef | .vBool _ | .vNum _ | .vStr _ => 0
  | .vArr i es => max i (maxIdList es)
  | .vObj i fs => max i (maxIdFields fs)
  | .vFun i _ => i

/-- Largest heap id in a list of values. -/
def maxIdList : List JsValue → Nat
  | [] => 0
  | v :: vs => max (maxId v) (maxIdList vs)

/-- Largest heap id in a field list. -/
def maxIdFields : List (String × JsValue) → Nat
  | [] => 0
  | (_, v) :: fs => max (maxId v) (maxIdFields fs)
end

/-- `ValidationOptions`; a missing `allowExtraProperties` reads as `false`. -/
structure VOptions where
  allowExtraProperties : Bool := false
deriving Repr, DecidableEq

/-- The mutable state of one validation traversal: the `PathContext`'s key
stack (`push` appends at the end, as a JS array does) plus the fresh-id
counter modelling heap allocation of result containers. -/
structure VState where
  path : List String
  next : Nat
deriving Repr, DecidableEq

/-- `context.path.pushKey(key)`. -/
def pushKey (k : String) (st : VState) : VState :=
  { st with path := st.path ++ [k] }

/-- `context.path.popKey()` (JS `Array.pop`: drops the last element). -/
def popKey (st : VState) : VState :=
  { st with path := st.path.dropLast }

/-- `context.path.current()`: the segments joined with `"."`. -/
def currentPath (st : VState) : String :=
  String.intercalate "." st.path

/-- The text of the error raised by `context.fail(message)`: the
keyed form is used iff `path.current()` is a non-empty string. -/
def failMsg (path : List String) (message : String) : String :=
  let p := String.intercalate "." path
  if p = "" then "Validation error: " ++ message
  else "Validation error for key " ++ "'" ++ p ++ "'" ++ ": " ++ message

/-- A validation function: `(value, options, context) => T`, with the
context state threaded explicitly and `throw` modelled by `Except`. -/
abbrev VFun := JsValue → VOptions → VState → VState × Except String JsValue

/-- `context.fail(message)`: raises, leaving the context state as it is. -/
def vFail (message : String) (st : VState) : VState × Except String JsValue :=
  (st, .error (failMsg st.path message))

/-- `aString` from `validator.ts`. -/
def aString : VFun := fun x _ st =>
  if jsTypeof x = "string" then (st, .ok x)
  else vFail ("expected a string, not " ++ typeName x) st

/-- `aBoolean` from `validator.ts`. -/
def aBoolean : VFun := fun x _ st =>
  if jsTypeof x = "boolean" then (st, .ok x)
  else vFail ("expected a boolean, not " ++ typeName x) st

/-- `aNumber` from `validator.ts`. -/
def aNumber : VFun := fun x _ st =>
  if jsTypeof x = "number" then (st, .ok x)
  else vFail ("expected a number, not " ++ typeName x) st

/-- The validation function built by the `orNull` getter. -/
def orNull (f : VFun) : VFun := fun x o st =>
  if x = .vNull then (st, .ok .vNull)
  else f x o st

/-- The validation function built by the `orUndefined` getter. -/
def orUndefined (f : VFun) : VFun := fun x o st =>
  if x = .vUndef then (st, .ok .vUndef)
  else f x o st

/-- The validation function built by `or`: try the receiver, and on a raised
failure discard it and run the other validator on the same context. -/
def orElseV (f g : VFun) : VFun := fun x o st =>
  match f x o st with
  | (st', .error _) => g x o st'
  | r => r

/-- The element loop of the `array` getter.  For element `i`: push the
stringified index, validate, record the result and whether it differs from
the input element, and pop the key again in a `finally` (so also on the
error path).  The `changed` flag is the disjunction of the per-element
comparisons `value !== validatedValue`. -/
def arrayLoop (f : VFun) (o : VOptions) : List JsValue → Nat → VState →
    VState × Except String (List JsValue × Bool)
  | [], _, st => (st, .ok ([], false))
  | v :: rest, i, st =>
    let st1 := pushKey (toString i) st
    match f v o st1 with
    | (st2, .error e) => (popKey st2, .error e)
    | (st2, .ok w) =>
      match arrayLoop f o rest (i + 1) (popKey st2) with
      | (st3, .error e) => (st3, .error e)
      | (st3, .ok (ws, ch)) => (st3, .ok (w :: ws, !(v == w) || ch))

/-- The validation function built by the `array` getter.  `const result = []`
allocates the candidate result array before the loop; if no element changed,
the original array is returned instead of it. -/
def arrayFn (f : VFun) : VFun := fun x o st =>
  match x with
  | .vArr _ es =>
    let rid := st.next
    let st0 : VState := ⟨st.path, st.next + 1⟩
    match arrayLoop f o es 0 st0 with
    | (st1, .error e) => (st1, .error e)
    | (st1, .ok (ws, changed)) => (st1, .ok (if changed then .vArr rid ws else x))
  | _ => vFail ("expected an array, not " ++ typeName x) st

/-- Whether `anObject`'s declared-key loop omits key `k` from the result:
the validated value is `undefined` and the input does not own `k`. -/
def skipField (x : JsValue) (k : String) (w : JsValue) : Bool :=
  w == JsValue.vUndef && !(hasOwn x k)

/-- The declared-key loop of `anObject`: for each declared key, read
`x[key]`, push the key, validate, pop in a `finally`; omit the key when
`skipField` holds, otherwise assign it and update the `changed` flag with
`validatedValue !== value`. -/
def objectLoop (x : JsValue) (o : VOptions) :
    List (String × VFun) → VState →
    VState × Except String (List (String × JsValue) × Bool)
  | [], st => (st, .ok ([], false))
  | (k, fk) :: rest, st =>
    let value := getProp x k
    let st1 := pushKey k st
    match fk value o st1 with
    | (st2, .error e) => (popKey st2, .error e)
    | (st2, .ok w) =>
      match objectLoop x o rest (popKey st2) with
      | (st3, .error e) => (st3, .error e)
      | (st3, .ok (fs, ch)) =>
        if skipField x k w then (st3, .ok (fs, ch))
        else (st3, .ok ((k, w) :: fs, !(w == value) || ch))

/-- The extra-key pass of `anObject` over `keys(x)` in order.  It does not
touch the path; on the first input key that is not declared it either fails
(`allowExtraProperties` unset) or copies the key/value into the result.
Note that it does not update the `changed` flag. -/
def extraResult (declared : List String) (o : VOptions) (pth : List String) :
    List (String × JsValue) → Except String (List (String × JsValue))
  | [] => .ok []
  | (k, v) :: rest =>
    if declared.contains k then extraResult declared o pth rest
    else if !o.allowExtraProperties then
      .error (failMsg pth ("unexpected property " ++ "\"" ++ k ++ "\""))
    else (extraResult declared o pth rest).map (fun ex => (k, v) :: ex)

/-- The validation function built by `anObject(validators)`.  The declared
keys and their validators are the association list `vals` (thunks already
resolved; `Object.keys` of a literal never yields non-strings, so the
`typeof key !== "string"` guard of the source is vacuous).  `const result =
{}` allocates the candidate result object after the non-object guard; it is
returned (declared assignments first, extra copies after) iff some declared
field changed by reference, and the original input otherwise. -/
def objectFn (vals : List (String × VFun)) : VFun := fun x o st =>
  if x = .vNull ∨ jsTypeof x ≠ "object" then
    vFail ("expected an object, not " ++ typeName x) st
  else
    let rid := st.next
    let st0 : VState := ⟨st.path, st.next + 1⟩
    match objectLoop x o vals st0 with
    | (st1, .error e) => (st1, .error e)
    | (st1, .ok (fs, changed)) =>
      match extraResult (vals.map Prod.fst) o st1.path (ownFields x) with
      | .error e => (st1, .error e)
      | .ok ex => (st1, .ok (if changed then .vObj rid (fs ++ ex) else x))

/-- `aFunction`'s own validation function: accept any callable. -/
def aFunction : VFun := fun x _ st =>
  if jsTypeof x = "function" then (st, .ok x)
  else vFail ("expected a function, not " ++ typeName x) st

/-- The validation function of the validator returned by
`aFunction.thatAccepts(param1)`: the source spreads the base validator
(`{ ...validator, andReturns }`), so its `validate` is the base one and the
parameter validator is never consulted — no arity check happens. -/
def thatAccepts (_param1 : VFun) : VFun := aFunction

/-- The validation function of the validator returned by
`aFunction.thatAccepts(param1).andReturns(result)`: the source builds
`makeValidator(v => v)`, the identity, which accepts every value. -/
def andReturns (_param1 _result : VFun) : VFun := fun v _ st => (st, .ok v)

/-- `makeContext()`: an empty path.  The fresh-id counter starts above every
id in the value about to be validated, modelling that new heap allocations
are distinct from all existing objects. -/
def makeContext (x : JsValue) : VState :=
  ⟨[], maxId x + 1⟩

/-- `validator.validate(x, options)` with a fresh context (defaults filled). -/
def runValidate (f : VFun) (x : JsValue) (o : VOptions) : Except String JsValue :=
  (f x o (makeContext x)).2

/-- `validator.isValid(x, options)`: run the same validation function on a
fresh context and turn a raised failure into `false`. -/
def isValid (f : VFun) (x : JsValue) (o : VOptions) : Bool :=
  match (f x o (makeContext x)).2 with
  | .ok _ => true
  | .error _ => false

/-- A validator object as a JS value: its heap identity plus the closed-over
validation function.  Used to state reference-(in)equality of the validator
objects themselves (claim about derived-validator stability). -/
structure ValidatorObj where
  vid : Nat
  fn : VFun

/-- `makeValidator(f)`: allocates a fresh validator object. -/
def makeValidatorObj (f : VFun) (fresh : Nat) : ValidatorObj × Nat :=
  (⟨fresh, f⟩, fresh + 1)

/-- Reading the `orNull` property: the getter body runs on every access and
calls `makeValidator` on a new closure — there is no caching. -/
def getOrNull (v : ValidatorObj) (fresh : Nat) : ValidatorObj × Nat :=
  makeValidatorObj (orNull v.fn) fresh

/-- Reading the `orUndefined` property (same shape as `orNull`). -/
def getOrUndefined (v : ValidatorObj) (fresh : Nat) : ValidatorObj × Nat :=
  makeValidatorObj (orUndefined v.fn) fresh

/-- Reading the `array` property (same shape as `orNull`). -/
def getArray (v : ValidatorObj) (fresh : Nat) : ValidatorObj × Nat :=
  makeValidatorObj (arrayFn v.fn) fresh

/-! ### The declared fields and change flag produced by the object loop -/

/-- The declared keys assigned into the result object when each declared
key's validator returns `g key`: the keys not omitted by `skipField`,
in declaration order, each bound to its validated value. -/
def assignedFields (x : JsValue) (g : String → JsValue) (vals : List (String × VFun)) :
    List (String × JsValue) :=
  vals.filterMap (fun p => if skipField x p.1 (g p.1) then none else some (p.1, g p.1))

/-- The value of `anObject`'s `changed` flag when each declared key's
validator returns `g key`: some assigned key's validated value differs from
the raw input value. -/
def changedFlag (x : JsValue) (g : String → JsValue) (vals : List (String × VFun)) : Bool :=
  vals.any (fun p => !(skipField x p.1 (g p.1)) && !(g p.1 == getProp x p.1))

/-- The first input key that is not declared, if any (the key the
extra-property pass fails on when extras are not allowed). -/
def firstExtra (declared : List String) (fs : List (String × JsValue)) : Option String :=
  (fs.find? (fun p => !(declared.contains p.1))).map Prod.fst

/-- A validation function restores the path stack of its context, whether it
returns or raises. -/
def PathStable (f : VFun) : Prop :=
  ∀ x o st, ((f x o st).1).path = st.path

/-! ### Helper lemmas -/

theorem popKey_pushKey (k : String) (st : VState) : popKey (pushKey k st) = st := by
  cases st with
  | mk p n => simp [popKey, pushKey]

theorem popKey_path_of_push {k : String} {st st2 : VState}
    (h : st2.path = st.path ++ [k]) : (popKey st2).path = st.path := by
  simp [popKey, h]

theorem pathStable_aString : PathStable aString := by
  intro x o st
  unfold aString
  split <;> rfl

theorem pathStable_aNumber : PathStable aNumber := by
  intro x o st
  unfold aNumber
  split <;> rfl

theorem pathStable_aBoolean : PathStable aBoolean := by
  intro x o st
  unfold aBoolean
  split <;> rfl

theorem arrayLoop_path {f : VFun} {o : VOptions} (hf : PathStable f) :
    ∀ (es : List JsValue) (i : Nat) (st : VState),
      ((arrayLoop f o es i st).1).path = st.path := by
  intro es
  induction es with
  | nil => intro i st; rfl
  | cons v rest ih =>
    intro i st
    simp only [arrayLoop]
    cases hfv : f v o (pushKey (toString i) st) with
    | mk st2 r =>
      have hp : st2.path = st.path ++ [toString i] := by
        have h := hf v o (pushKey (toString i) st)
        rw [hfv] at h
        simpa [pushKey] using h
      cases r with
      | error e => simpa using popKey_path_of_push hp
      | ok w =>
        dsimp only
        cases hrec : arrayLoop f o rest (i + 1) (popKey st2) with
        | mk st3 rr =>
          have h3 : st3.path = st.path := by
            have h := ih (i + 1) (popKey st2)
            rw [hrec] at h
            rw [h, popKey_path_of_push hp]
          cases rr with
          | error e => simpa using h3
          | ok p => cases p with | mk ws ch => simpa using h3

theorem objectLoop_path {x : JsValue} {o : VOptions} :
    ∀ (vals : List (String × VFun)), (∀ p ∈ vals, PathStable p.2) →
      ∀ st : VState, ((objectLoop x o vals st).1).path = st.path := by
  intro vals
  induction vals with
  | nil => intro _ _; rfl
  | cons p rest ih =>
    intro hps st
    cases p with
    | mk k fk =>
      simp only [objectLoop]
      cases hfv : fk (getProp x k) o (pushKey k st) with
      | mk st2 r =>
        have hstable : PathStable fk := hps (k, fk) (by simp)
        have hp : st2.path = st.path ++ [k] := by
          have h := hstable (getProp x k) o (pushKey k st)
          rw [hfv] at h
          simpa [pushKey] using h
        cases r with
        | error e => simpa using popKey_path_of_push hp
        | ok w =>
          dsimp only
          cases hrec : objectLoop x o rest (popKey st2) with
          | mk st3 rr =>
            have h3 : st3.path = st.path := by
              have h := ih (fun q hq => hps q (by simp [hq])) (popKey st2)
              rw [hrec] at h
              rw [h, popKey_path_of_push hp]
            cases rr with
            | error e => simpa using h3
            | ok pr =>
              cases pr with
              | mk fs ch =>
                dsimp only
                split <;> simpa using h3

theorem arrayLoop_snd {f : VFun} {o : VOptions} {g : JsValue → JsValue} :
    ∀ (es : List JsValue), (∀ v ∈ es, ∀ s, (f v o s).2 = .ok (g v)) →
      ∀ (i : Nat) (st : VState),
        (arrayLoop f o es i st).2
          = .ok (es.map g, es.any (fun v => !(v == g v))) := by
  intro es
  induction es with
  | nil => intro _ _ _; rfl
  | cons v rest ih =>
    intro hg i st
    simp only [arrayLoop]
    cases hfv : f v o (pushKey (toString i) st) with
    | mk st2 r =>
      have hr : r = .ok (g v) := by
        have h := hg v (by simp) (pushKey (toString i) st)
        rw [hfv] at h
        exact h
      subst hr
      dsimp only
      cases hrec : arrayLoop f o rest (i + 1) (popKey st2) with
      | mk st3 rr =>
        have h2 : rr = .ok (rest.map g, rest.any (fun w => !(w == g w))) := by
          have h := ih (fun w hw s => hg w (by simp [hw]) s) (i + 1) (popKey st2)
          rw [hrec] at h
          exact h
        subst h2
        simp

theorem objectLoop_snd {x : JsValue} {o : VOptions} {g : String → JsValue} :
    ∀ (vals : List (String × VFun)),
      (∀ p ∈ vals, ∀ s, (p.2 (getProp x p.1) o s).2 = .ok (g p.1)) →
      ∀ st : VState,
        (objectLoop x o vals st).2
          = .ok (assignedFields x g vals, changedFlag x g vals) := by
  intro vals
  induction vals with
  | nil => intro _ _; rfl
  | cons p rest ih =>
    intro hg st
    cases p with
    | mk k fk =>
      simp only [objectLoop]
      cases hfv : fk (getProp x k) o (pushKey k st) with
      | mk st2 r =>
        have huni : ∀ s, (fk (getProp x k) o s).2 = .ok (g k) := hg (k, fk) (by simp)
        have hr : r = .ok (g k) := by
          have h := huni (pushKey k st)
          rw [hfv] at h
          exact h
        subst hr
        dsimp only
        cases hrec : objectLoop x o rest (popKey st2) with
        | mk st3 rr =>
          have h2 : rr = .ok (assignedFields x g rest, changedFlag x g rest) := by
            have h := ih (fun q hq s => hg q (by simp [hq]) s) (popKey st2)
            rw [hrec] at h
            exact h
          subst h2
          by_cases hsk : skipField x k (g k) = true
          · simp [hsk, assignedFields, changedFlag]
          · simp only [Bool.not_eq_true] at hsk
            simp [hsk, assignedFields, changedFlag]

theorem extraResult_allowed {d : List String} {o : VOptions} {pth : List String}
    (ho : o.allowExtraProperties = true) :
    ∀ fs : List (String × JsValue),
      extraResult d o pth fs = .ok (fs.filter (fun p => !(d.contains p.1))) := by
  intro fs
  induction fs with
  | nil => rfl
  | cons p rest ih =>
    cases p with
    | mk k v =>
      by_cases hk : k ∈ d
      · simp [extraResult, hk, ih, List.filter_cons]
      · simp [extraResult, hk, ho, ih, List.filter_cons, Except.map]

theorem extraResult_none {d : List String} {o : VOptions} {pth : List String} :
    ∀ fs : List (String × JsValue), (∀ p ∈ fs, d.contains p.1 = true) →
      extraResult d o pth fs = .ok [] := by
  intro fs
  induction fs with
  | nil => intro _; rfl
  | cons p rest ih =>
    intro hall
    cases p with
    | mk k v =>
      have hk : k ∈ d := by simpa using hall (k, v) (by simp)
      simp [extraResult, hk, ih (fun q hq => hall q (by simp [hq]))]

theorem extraResult_disallowed {d : List String} {o : VOptions} {pth : List String}
    (ho : o.allowExtraProperties = false) :
    ∀ (fs : List (String × JsValue)) (k : String), firstExtra d fs = some k →
      extraResult d o pth fs
        = .error (failMsg pth ("unexpected property " ++ "\"" ++ k ++ "\"")) := by
  intro fs
  induction fs with
  | nil => intro k h; simp [firstExtra] at h
  | cons p rest ih =>
    intro k h
    cases p with
    | mk k' v =>
      by_cases hk : k' ∈ d
      · have hrest : firstExtra d rest = some k := by
          simpa [firstExtra, List.find?_cons, hk] using h
        simp [extraResult, hk, ih k hrest]
      · have hkk : k' = k := by
          simpa [firstExtra, List.find?_cons, hk] using h
        subst hkk
        simp [extraResult, hk, ho]

theorem objectFn_run {vals : List (String × VFun)} {x : JsValue} {o : VOptions}
    {g : String → JsValue} {ex : List (String × JsValue)} {st : VState}
    (hx : ¬(x = .vNull ∨ jsTypeof x ≠ "object"))
    (hval : ∀ p ∈ vals, ∀ s, (p.2 (getProp x p.1) o s).2 = .ok (g p.1))
    (hex : ∀ pth, extraResult (vals.map Prod.fst) o pth (ownFields x) = .ok ex) :
    (objectFn vals x o st).2
      = .ok (if changedFlag x g vals then .vObj st.next (assignedFields x g vals ++ ex)
             else x) := by
  unfold objectFn
  rw [if_neg hx]
  dsimp only
  cases hloop : objectLoop x o vals ⟨st.path, st.next + 1⟩ with
  | mk st1 r =>
    have hr : r = .ok (assignedFields x g vals, changedFlag x g vals) := by
      have h := objectLoop_snd vals hval ⟨st.path, st.next + 1⟩
      rw [hloop] at h
      exact h
    subst hr
    dsimp only
    rw [hex st1.path]

theorem objectFn_run_err {vals : List (String × VFun)} {x : JsValue} {o : VOptions}
    {g : String → JsValue} {st : VState} {k : String}
    (hx : ¬(x = .vNull ∨ jsTypeof x ≠ "object"))
    (hval : ∀ p ∈ vals, ∀ s, (p.2 (getProp x p.1) o s).2 = .ok (g p.1))
    (hps : ∀ p ∈ vals, PathStable p.2)
    (ho : o.allowExtraProperties = false)
    (hk : firstExtra (vals.map Prod.fst) (ownFields x) = some k) :
    (objectFn vals x o st).2
      = .error (failMsg st.path ("unexpected property " ++ "\"" ++ k ++ "\"")) := by
  unfold objectFn
  rw [if_neg hx]
  dsimp only
  cases hloop : objectLoop x o vals ⟨st.path, st.next + 1⟩ with
  | mk st1 r =>
    have hr : r = .ok (assignedFields x g vals, changedFlag x g vals) := by
      have h := objectLoop_snd vals hval ⟨st.path, st.next + 1⟩
      rw [hloop] at h
      exact h
    subst hr
    have hpath : st1.path = st.path := by
      have h := @objectLoop_path x o vals hps ⟨st.path, st.next + 1⟩
      rw [hloop] at h
      exact h
    dsimp only
    rw [extraResult_disallowed ho (ownFields x) k hk, hpath]

theorem arrayFn_run {f : VFun} {o : VOptions} {g : JsValue → JsValue}
    {aid : Nat} {es : List JsValue} {st : VState}
    (hg : ∀ v ∈ es, ∀ s, (f v o s).2 = .ok (g v)) :
    (arrayFn f (.vArr aid es) o st).2
      = .ok (if es.any (fun v => !(v == g v)) then .vArr st.next (es.map g)
             else .vArr aid es) := by
  unfold arrayFn
  dsimp only
  cases hloop : arrayLoop f o es 0 ⟨st.path, st.next + 1⟩ with
  | mk st1 r =>
    have hr : r = .ok (es.map g, es.any (fun v => !(v == g v))) := by
      have h := arrayLoop_snd es hg 0 ⟨st.path, st.next + 1⟩
      rw [hloop] at h
      exact h
    subst hr
    rfl

/-! ### Claim theorems -/

/-- C1: Identity preservation.  (1) If every element of an array validates to
a reference-equal result, the array validator returns the original array
itself; (2) if every declared field of an object input validates
reference-equal and no undeclared own key is present, the object validator
returns the original input itself; (3) if some array element changes by
reference, a freshly built array (fresh heap id, hence not the input array)
is returned with per-element order preserved; (4) if some declared field
changes by reference, a freshly built object is returned with per-key order
preserved. -/
theorem c1_identity_preservation :
    (∀ (f : VFun) (o : VOptions) (aid : Nat) (es : List JsValue) (st : VState),
      (∀ v ∈ es, ∀ s, (f v o s).2 = Except.ok v) →
      (arrayFn f (.vArr aid es) o st).2 = Except.ok (.vArr aid es))
    ∧ (∀ (vals : List (String × VFun)) (o : VOptions) (x : JsValue) (st : VState),
      ¬(x = .vNull ∨ jsTypeof x ≠ "object") →
      (∀ p ∈ vals, ∀ s, (p.2 (getProp x p.1) o s).2 = Except.ok (getProp x p.1)) →
      (∀ q ∈ ownFields x, (vals.map Prod.fst).contains q.1 = true) →
      (objectFn vals x o st).2 = Except.ok x)
    ∧ (∀ (f : VFun) (o : VOptions) (g : JsValue → JsValue) (aid : Nat)
         (es : List JsValue) (st : VState),
      (∀ v ∈ es, ∀ s, (f v o s).2 = Except.ok (g v)) →
      es.any (fun v => !(v == g v)) = true →
      aid < st.next →
      (arrayFn f (.vArr aid es) o st).2 = Except.ok (.vArr st.next (es.map g))
        ∧ JsValue.vArr st.next (es.map g) ≠ .vArr aid es)
    ∧ (∀ (vals : List (String × VFun)) (o : VOptions) (g : String → JsValue)
         (oid : Nat) (ifs : List (String × JsValue)) (st : VState),
      (∀ p ∈ vals, ∀ s,
        (p.2 (getProp (.vObj oid ifs) p.1) o s).2 = Except.ok (g p.1)) →
      (∀ q ∈ ownFields (.vObj oid ifs), (vals.map Prod.fst).contains q.1 = true) →
      changedFlag (.vObj oid ifs) g vals = true →
      oid < st.next →
      (objectFn vals (.vObj oid ifs) o st).2
          = Except.ok (.vObj st.next (assignedFields (.vObj oid ifs) g vals))
        ∧ JsValue.vObj st.next (assignedFields (.vObj oid ifs) g vals) ≠ .vObj oid ifs) := by
  refine ⟨?_, ?_, ?_, ?_⟩
  · intro f o aid es st hid
    have h := @arrayFn_run f o (fun v => v) aid es st hid
    simpa using h
  · intro vals o x st hx hval hsub
    have hex : ∀ pth, extraResult (vals.map Prod.fst) o pth (ownFields x)
        = Except.ok [] := fun pth => extraResult_none (ownFields x) hsub
    have h := @objectFn_run vals x o (fun k => getProp x k) [] st hx hval hex
    have hch : changedFlag x (fun k => getProp x k) vals = false := by
      simp [changedFlag]
    rw [hch] at h
    simpa using h
  · intro f o g aid es st hg hany hlt
    have h := @arrayFn_run f o g aid es st hg
    rw [hany] at h
    refine ⟨by simpa using h, ?_⟩
    intro heq
    exact absurd (JsValue.vArr.inj heq).1 (by omega)
  · intro vals o g oid ifs st hval hsub hch hlt
    have hex : ∀ pth, extraResult (vals.map Prod.fst) o pth (ownFields (.vObj oid ifs))
        = Except.ok [] := fun pth => extraResult_none (ownFields (.vObj oid ifs)) hsub
    have h := @objectFn_run vals (.vObj oid ifs) o g [] st (by simp [jsTypeof]) hval hex
    rw [hch] at h
    refine ⟨by simpa using h, ?_⟩
    intro heq
    exact absurd (JsValue.vObj.inj heq).1 (by omega)

/-- Witness for C1: the identity and freshly-built cases at concrete inputs
(`aString.array` on an unchanged array, a one-field object of strings, and an
artificial element/field validator that replaces values, forcing a change). -/
theorem c1_identity_preservation_witness :
    (arrayFn aString (.vArr 0 [.vStr "a", .vStr "b"]) ⟨false⟩ ⟨[], 1⟩).2
        = Except.ok (.vArr 0 [.vStr "a", .vStr "b"])
    ∧ (objectFn [("name", aString)] (.vObj 0 [("name", .vStr "x")]) ⟨false⟩ ⟨[], 1⟩).2
        = Except.ok (.vObj 0 [("name", .vStr "x")])
    ∧ (arrayFn (fun _ _ s => (s, Except.ok (.vNum 0))) (.vArr 0 [.vNum 1]) ⟨false⟩ ⟨[], 1⟩).2
        = Except.ok (.vArr 1 [.vNum 0])
    ∧ (objectFn [("a", fun _ _ s => (s, Except.ok (.vNum 0)))]
        (.vObj 0 [("a", .vNum 1)]) ⟨false⟩ ⟨[], 1⟩).2
        = Except.ok (.vObj 1 [("a", .vNum 0)]) := by
  refine ⟨?_, ?_, ?_, ?_⟩
  · exact c1_identity_preservation.1 aString ⟨false⟩ 0 [.vStr "a", .vStr "b"] ⟨[], 1⟩
      (by intro v hv s; simp at hv; rcases hv with rfl | rfl <;> rfl)
  · exact c1_identity_preservation.2.1 [("name", aString)] ⟨false⟩
      (.vObj 0 [("name", .vStr "x")]) ⟨[], 1⟩ (by decide)
      (by intro p hp s; simp at hp; subst hp; rfl) (by decide)
  · exact (c1_identity_preservation.2.2.1 (fun _ _ s => (s, Except.ok (.vNum 0))) ⟨false⟩
      (fun _ => .vNum 0) 0 [.vNum 1] ⟨[], 1⟩ (fun _ _ _ => rfl) (by decide) (by decide)).1
  · exact (c1_identity_preservation.2.2.2 [("a", fun _ _ s => (s, Except.ok (.vNum 0)))]
      ⟨false⟩ (fun _ => .vNum 0) 0 [("a", .vNum 1)] ⟨[], 1⟩
      (by intro p hp s; simp at hp; subst hp; rfl) (by decide) (by decide) (by decide)).1

/-- C2 counterexample: with `allowExtraProperties` set, extra keys present,
and no declared field changed, the code returns the original input object
(heap id 4) itself — not a freshly built result object as the claim states
(fresh ids here start at 5). -/
theorem c2_counterexample :
    (objectFn [("name", aString)]
      (.vObj 4 [("name", .vStr "x"), ("foo", .vStr "bar")]) ⟨true⟩ ⟨[], 5⟩).2
      = Except.ok (.vObj 4 [("name", .vStr "x"), ("foo", .vStr "bar")]) := by
  decide

/-- C2 (amended): after the declared keys, each undeclared input key either
fails validation immediately (`allowExtraProperties` unset) with the
`unexpected property` message, or is copied into the candidate result object
without setting the `changed` flag — so when no declared field changed by
reference the original input object (which already carries the extra
properties) is returned, and the freshly built result object containing the
copied extras is returned only when some declared field changed. -/
theorem c2_extra_property_policy :
    (∀ (vals : List (String × VFun)) (o : VOptions) (x : JsValue)
       (g : String → JsValue) (st : VState) (k : String),
      ¬(x = .vNull ∨ jsTypeof x ≠ "object") →
      (∀ p ∈ vals, ∀ s, (p.2 (getProp x p.1) o s).2 = Except.ok (g p.1)) →
      (∀ p ∈ vals, PathStable p.2) →
      o.allowExtraProperties = false →
      firstExtra (vals.map Prod.fst) (ownFields x) = some k →
      (objectFn vals x o st).2
        = Except.error (failMsg st.path ("unexpected property " ++ "\"" ++ k ++ "\"")))
    ∧ (∀ (vals : List (String × VFun)) (o : VOptions) (x : JsValue) (st : VState),
      ¬(x = .vNull ∨ jsTypeof x ≠ "object") →
      (∀ p ∈ vals, ∀ s, (p.2 (getProp x p.1) o s).2 = Except.ok (getProp x p.1)) →
      o.allowExtraProperties = true →
      (objectFn vals x o st).2 = Except.ok x)
    ∧ (∀ (vals : List (String × VFun)) (o : VOptions) (x : JsValue)
       (g : String → JsValue) (st : VState),
      ¬(x = .vNull ∨ jsTypeof x ≠ "object") →
      (∀ p ∈ vals, ∀ s, (p.2 (getProp x p.1) o s).2 = Except.ok (g p.1)) →
      o.allowExtraProperties = true →
      changedFlag x g vals = true →
      (objectFn vals x o st).2
        = Except.ok (.vObj st.next (assignedFields x g vals
            ++ (ownFields x).filter (fun p => !((vals.map Prod.fst).contains p.1))))) := by
  refine ⟨?_, ?_, ?_⟩
  · intro vals o x g st k hx hval hps ho hk
    exact objectFn_run_err hx hval hps ho hk
  · intro vals o x st hx hval ho
    have hex : ∀ pth, extraResult (vals.map Prod.fst) o pth (ownFields x)
        = Except.ok ((ownFields x).filter (fun p => !((vals.map Prod.fst).contains p.1))) :=
      fun pth => extraResult_allowed ho (ownFields x)
    have h := @objectFn_run vals x o (fun k => getProp x k)
      ((ownFields x).filter (fun p => !((vals.map Prod.fst).contains p.1))) st hx hval hex
    have hch : changedFlag x (fun k => getProp x k) vals = false := by
      simp [changedFlag]
    rw [hch, if_neg Bool.false_ne_true] at h
    exact h
  · intro vals o x g st hx hval ho hch
    have hex : ∀ pth, extraResult (vals.map Prod.fst) o pth (ownFields x)
        = Except.ok ((ownFields x).filter (fun p => !((vals.map Prod.fst).contains p.1))) :=
      fun pth => extraResult_allowed ho (ownFields x)
    have h := @objectFn_run vals x o g
      ((ownFields x).filter (fun p => !((vals.map Prod.fst).contains p.1))) st hx hval hex
    rw [hch, if_pos rfl] at h
    exact h

/-- Witness for C2 (amended) at concrete inputs: an undeclared key fails
without the option, is swallowed into the original when nothing changed,
and lands in the fresh result object when a declared field changed. -/
theorem c2_extra_property_policy_witness :
    (objectFn [("name", aString)]
        (.vObj 4 [("name", .vStr "x"), ("foo", .vStr "bar")]) ⟨false⟩ ⟨[], 5⟩).2
      = Except.error (failMsg [] ("unexpected property " ++ "\"" ++ "foo" ++ "\""))
    ∧ (objectFn [("name", aString)]
        (.vObj 4 [("name", .vStr "x"), ("foo", .vStr "bar")]) ⟨true⟩ ⟨[], 5⟩).2
      = Except.ok (.vObj 4 [("name", .vStr "x"), ("foo", .vStr "bar")])
    ∧ (objectFn [("a", fun _ _ s => (s, Except.ok (.vNum 0)))]
        (.vObj 4 [("a", .vNum 1), ("foo", .vStr "bar")]) ⟨true⟩ ⟨[], 5⟩).2
      = Except.ok (.vObj 5 [("a", .vNum 0), ("foo", .vStr "bar")]) := by
  refine ⟨?_, ?_, ?_⟩
  · exact c2_extra_property_policy.1 [("name", aString)] ⟨false⟩
      (.vObj 4 [("name", .vStr "x"), ("foo", .vStr "bar")])
      (fun k => getProp (.vObj 4 [("name", .vStr "x"), ("foo", .vStr "bar")]) k) ⟨[], 5⟩ "foo"
      (by decide) (by intro p hp s; simp at hp; subst hp; rfl)
      (by intro p hp; simp at hp; subst hp; exact pathStable_aString)
      rfl (by decide)
  · exact c2_extra_property_policy.2.1 [("name", aString)] ⟨true⟩
      (.vObj 4 [("name", .vStr "x"), ("foo", .vStr "bar")]) ⟨[], 5⟩
      (by decide) (by intro p hp s; simp at hp; subst hp; rfl) rfl
  · exact c2_extra_property_policy.2.2 [("a", fun _ _ s => (s, Except.ok (.vNum 0)))] ⟨true⟩
      (.vObj 4 [("a", .vNum 1), ("foo", .vStr "bar")]) (fun _ => .vNum 0) ⟨[], 5⟩
      (by decide) (by intro p hp s; simp at hp; subst hp; rfl) rfl (by decide)

/-- C3: three-way key distinction.  In general, a declared key whose
validated value is `undefined` and which the input does not own is omitted
from the assigned result fields, and every other declared key is assigned
its validated value; concretely, validating `{name:"x"}` against
`{name, extra?}` yields a result without an `extra` key while validating
`{name:"x", extra: undefined}` yields a result owning `extra` with value
`undefined`. -/
theorem c3_three_way_key_distinction :
    (∀ (x : JsValue) (o : VOptions) (vals : List (String × VFun))
       (g : String → JsValue) (st : VState),
      (∀ p ∈ vals, ∀ s, (p.2 (getProp x p.1) o s).2 = Except.ok (g p.1)) →
      (vals.map Prod.fst).Nodup →
      (objectLoop x o vals st).2
          = Except.ok (assignedFields x g vals, changedFlag x g vals)
        ∧ ∀ p ∈ vals,
          (skipField x p.1 (g p.1) = true →
            ∀ w, (p.1, w) ∉ assignedFields x g vals)
          ∧ (skipField x p.1 (g p.1) = false →
            (p.1, g p.1) ∈ assignedFields x g vals))
    ∧ (objectFn [("name", aString), ("extra", orUndefined aString)]
        (.vObj 1 [("name", .vStr "x")]) ⟨false⟩ ⟨[], 2⟩).2
        = Except.ok (.vObj 1 [("name", .vStr "x")])
    ∧ hasOwn (.vObj 1 [("name", .vStr "x")]) "extra" = false
    ∧ (objectFn [("name", aString), ("extra", orUndefined aString)]
        (.vObj 2 [("name", .vStr "x"), ("extra", .vUndef)]) ⟨false⟩ ⟨[], 3⟩).2
        = Except.ok (.vObj 2 [("name", .vStr "x"), ("extra", .vUndef)])
    ∧ hasOwn (.vObj 2 [("name", .vStr "x"), ("extra", .vUndef)]) "extra" = true
    ∧ getProp (.vObj 2 [("name", .vStr "x"), ("extra", .vUndef)]) "extra" = .vUndef := by
  refine ⟨?_, by decide, by decide, by decide, by decide, by decide⟩
  intro x o vals g st hval hnd
  refine ⟨objectLoop_snd vals hval st, ?_⟩
  intro p hp
  constructor
  · intro hskip w hmem
    rw [assignedFields, List.mem_filterMap] at hmem
    obtain ⟨q, hq, heq⟩ := hmem
    by_cases hsq : skipField x q.1 (g q.1) = true
    · rw [if_pos hsq] at heq
      exact Option.noConfusion heq
    · rw [if_neg hsq] at heq
      have hpair : (q.1, g q.1) = (p.1, w) := Option.some.inj heq
      have hfst : q.1 = p.1 := (Prod.mk.inj hpair).1
      have : q = p := List.inj_on_of_nodup_map hnd hq hp hfst
      subst this
      exact hsq (by rw [hskip])
  · intro hskip
    rw [assignedFields, List.mem_filterMap]
    exact ⟨p, hp, by rw [if_neg (by rw [hskip]; exact Bool.false_ne_true)]⟩

/-- Witness for C3: the general omission/assignment rule applied to the
optional-key schema on the input `{name:"x"}`. -/
theorem c3_three_way_key_distinction_witness :
    (objectLoop (.vObj 1 [("name", .vStr "x")]) ⟨false⟩
        [("name", aString), ("extra", orUndefined aString)] ⟨[], 2⟩).2
      = Except.ok ([("name", .vStr "x")], false) :=
  (c3_three_way_key_distinction.1 (.vObj 1 [("name", .vStr "x")]) ⟨false⟩
    [("name", aString), ("extra", orUndefined aString)]
    (fun k => getProp (.vObj 1 [("name", .vStr "x")]) k) ⟨[], 2⟩
    (by intro p hp s; simp at hp; rcases hp with rfl | rfl <;> rfl)
    (by decide)).1

/-- C4: the union combinator tries the receiver first and returns its result
on success; on a raised failure it discards that error and runs the second
validator on the same context, so the caller sees the second validator's
result or error.  Concretely `aString.or(aNumber)` accepts `3` via the
second alternative and rejects `true` with the number error message. -/
theorem c4_union_order_and_error_swallowing :
    (∀ (f g : VFun) (x : JsValue) (o : VOptions) (st st' : VState) (v : JsValue),
      f x o st = (st', Except.ok v) → orElseV f g x o st = (st', Except.ok v))
    ∧ (∀ (f g : VFun) (x : JsValue) (o : VOptions) (st st' : VState) (e : String),
      f x o st = (st', Except.error e) → orElseV f g x o st = g x o st')
    ∧ (orElseV aString aNumber (.vNum 3) ⟨false⟩ ⟨[], 1⟩).2 = Except.ok (.vNum 3)
    ∧ (orElseV aString aNumber (.vBool true) ⟨false⟩ ⟨[], 1⟩).2
        = Except.error "Validation error: expected a number, not a boolean" := by
  refine ⟨?_, ?_, by decide, by decide⟩
  · intro f g x o st st' v h
    unfold orElseV
    rw [h]
  · intro f g x o st st' e h
    unfold orElseV
    rw [h]

/-- Witness for C4: `aString.or(aNumber)` on the number `3` runs the second
alternative on the same context after the first one failed. -/
theorem c4_union_order_witness :
    orElseV aString aNumber (.vNum 3) ⟨false⟩ ⟨[], 1⟩ = aNumber (.vNum 3) ⟨false⟩ ⟨[], 1⟩ :=
  c4_union_order_and_error_swallowing.2.1 aString aNumber (.vNum 3) ⟨false⟩ ⟨[], 1⟩ ⟨[], 1⟩
    "Validation error: expected a string, not a number" (by decide)

/-- C5: path-stack restoration.  If a validation function restores the path
stack of its context (on success and on failure alike), then so do the
array combinator built from it and the object combinator built from
path-restoring field validators: the pushed index/key segment is always
popped again, even when the nested validation raises. -/
theorem c5_path_stack_restoration :
    (∀ f : VFun, PathStable f → PathStable (arrayFn f))
    ∧ (∀ vals : List (String × VFun),
        (∀ p ∈ vals, PathStable p.2) → PathStable (objectFn vals)) := by
  constructor
  · intro f hf x o st
    cases x
    case vArr aid es =>
      unfold arrayFn
      dsimp only
      cases hloop : arrayLoop f o es 0 ⟨st.path, st.next + 1⟩ with
      | mk st1 r =>
        have h := @arrayLoop_path f o hf es 0 ⟨st.path, st.next + 1⟩
        rw [hloop] at h
        cases r with
        | error e => simpa using h
        | ok p => cases p with | mk ws ch => simpa using h
    all_goals rfl
  · intro vals hps x o st
    unfold objectFn
    by_cases hx : x = .vNull ∨ jsTypeof x ≠ "object"
    · rw [if_pos hx]
      rfl
    · rw [if_neg hx]
      dsimp only
      cases hloop : objectLoop x o vals ⟨st.path, st.next + 1⟩ with
      | mk st1 r =>
        have h := @objectLoop_path x o vals hps ⟨st.path, st.next + 1⟩
        rw [hloop] at h
        cases r with
        | error e => simpa using h
        | ok pr =>
          cases pr with
          | mk fs changed =>
            dsimp only
            cases extraResult (vals.map Prod.fst) o st1.path (ownFields x) <;>
              simpa using h

/-- Witness for C5: after running `aString.array` on an array whose element
fails, the context's path stack is back to its pre-call state `["k"]`. -/
theorem c5_path_stack_restoration_witness :
    ((arrayFn aString (.vArr 0 [.vNum 1]) ⟨false⟩ ⟨["k"], 5⟩).1).path = ["k"] :=
  c5_path_stack_restoration.1 aString pathStable_aString (.vArr 0 [.vNum 1]) ⟨false⟩ ⟨["k"], 5⟩

/-- C6: failure message format.  `fail(message)` raises an error whose text
is `Validation error: <message>` when the joined path is the empty string
and `Validation error for key \'<dotted.path>\': <message>` otherwise, the
segments joined with `.`; and the nested example input raises an error whose
reported path is `subItems.0.value`. -/
theorem c6_failure_message_format :
    (∀ (st : VState) (msg : String),
      vFail msg st = (st, Except.error (failMsg st.path msg))
      ∧ (String.intercalate "." st.path = "" →
          failMsg st.path msg = "Validation error: " ++ msg)
      ∧ (String.intercalate "." st.path ≠ "" →
          failMsg st.path msg
            = "Validation error for key " ++ "'" ++ String.intercalate "." st.path
                ++ "'" ++ ": " ++ msg))
    ∧ runValidate
        (objectFn [("subItems", arrayFn (objectFn [("name", aString), ("value", aNumber)]))])
        (.vObj 10 [("subItems",
          .vArr 11 [.vObj 12 [("name", .vStr ""), ("value", .vStr "not-a-number")]])])
        ⟨false⟩
      = Except.error
          "Validation error for key 'subItems.0.value': expected a number, not a string" := by
  constructor
  · intro st msg
    refine ⟨rfl, ?_, ?_⟩ <;> intro h <;> simp [failMsg, h]
  · decide

/-- Witness for C6: the keyed message format at the concrete path `a.b`. -/
theorem c6_failure_message_format_witness :
    failMsg ["a", "b"] "m"
      = "Validation error for key " ++ "'" ++ String.intercalate "." ["a", "b"]
          ++ "'" ++ ": " ++ "m" :=
  ((c6_failure_message_format.1 ⟨["a", "b"], 0⟩ "m").2.2) (by decide)

/-- C7: `isValid` runs the same validation function on a fresh context and
returns a total Boolean: `true` exactly when that run returns a value, and
`false` exactly when it raises — a raised failure never escapes. -/
theorem c7_isValid_never_raises :
    ∀ (f : VFun) (x : JsValue) (o : VOptions),
      (isValid f x o = true ↔ ∃ v, (f x o (makeContext x)).2 = Except.ok v)
      ∧ (isValid f x o = false ↔ ∃ e, (f x o (makeContext x)).2 = Except.error e) := by
  intro f x o
  unfold isValid
  cases h : (f x o (makeContext x)).2 with
  | ok v => simp
  | error e => simp

/-- C8: evaluation of the function-validator family at a mismatched-arity
callable.  The base validator accepts any callable and rejects
non-callables, but the validator returned by `thatAccepts(aBoolean)`
accepts a callable of declared arity 2 without failing (no arity check
exists), and the validator returned by `andReturns` is the identity and
even accepts a non-callable — contradicting the spec and the repository's
own tests, which expect a descriptive arity error. -/
theorem c8_no_arity_check :
    (aFunction (.vFun 0 2) ⟨false⟩ ⟨[], 1⟩).2 = Except.ok (.vFun 0 2)
    ∧ (aFunction (.vNum 3) ⟨false⟩ ⟨[], 1⟩).2
        = Except.error "Validation error: expected a function, not a number"
    ∧ (thatAccepts aBoolean (.vFun 0 2) ⟨false⟩ ⟨[], 1⟩).2 = Except.ok (.vFun 0 2)
    ∧ (andReturns aBoolean aString (.vNum 3) ⟨false⟩ ⟨[], 1⟩).2 = Except.ok (.vNum 3) := by
  exact ⟨by decide, by decide, by decide, rfl⟩

/-- C9 counterexample: reading the `orNull` property twice on the same base
validator runs the getter twice and allocates two distinct validator
objects — the two reads are not reference-equal, refuting the claimed
construct-once stability. -/
theorem c9_counterexample :
    (getOrNull (makeValidatorObj aString 0).1 1).1
      ≠ (getOrNull (makeValidatorObj aString 0).1
          ((getOrNull (makeValidatorObj aString 0).1 1).2)).1 := by
  intro h
  have hvid := congrArg ValidatorObj.vid h
  simp [getOrNull, makeValidatorObj] at hvid

/-- C9 (amended): each access of `orNull`, `orUndefined` or `array` runs the
getter and allocates a fresh validator object, so repeated reads are not
reference-equal; the validators produced by different reads are
behaviourally identical — they close over the same validation function. -/
theorem c9_derived_validators_fresh_but_equivalent :
    ∀ (v : ValidatorObj) (n m : Nat),
      (getOrNull v n).1.fn = (getOrNull v m).1.fn
      ∧ (getOrUndefined v n).1.fn = (getOrUndefined v m).1.fn
      ∧ (getArray v n).1.fn = (getArray v m).1.fn
      ∧ (getOrNull v n).1.vid = n ∧ (getOrNull v n).2 = n + 1 := by
  intro v n m
  exact ⟨rfl, rfl, rfl, rfl, rfl⟩

/-- C10: an array input passes the object combinator's non-object guard
(`typeof [] === "object"` and `[] !== null`), and is then validated
key-wise: an object validator with no declared keys accepts the empty array
and returns that very array, while a non-empty array fails on its first
stringified index as an unexpected property. -/
theorem c10_arrays_pass_object_guard :
    (∀ (aid : Nat) (es : List JsValue),
      ((JsValue.vArr aid es = JsValue.vNull) = False)
        ∧ jsTypeof (.vArr aid es) = "object")
    ∧ (∀ (aid : Nat) (o : VOptions) (st : VState),
      (objectFn [] (.vArr aid []) o st).2 = Except.ok (.vArr aid []))
    ∧ (objectFn [] (.vArr 0 [.vNum 1]) ⟨false⟩ ⟨[], 1⟩).2
        = Except.error "Validation error: unexpected property \"0\"" := by
  refine ⟨?_, ?_, by decide⟩
  · intro aid es
    exact ⟨by simp, rfl⟩
  · intro aid o st
    have h := @objectFn_run [] (.vArr aid []) o (fun _ => .vUndef) [] st
      (by simp [jsTypeof]) (by simp) (fun pth => rfl)
    simpa [changedFlag] using h

end SafeType
